import Mathlib

/-! Verification of the `top-group` crate.

The model below is a shallow embedding of `src/lib.rs` (the `MemoryUsage`
value type, `ProcessGroups`, and the aggregation loop of
`GroupedProcess::new`) and of the report ordering performed by
`src/main.rs`. Rust `u64` values are modelled as `Nat` reduced modulo
`2 ^ 64` wherever the source performs machine arithmetic (release-mode
wrapping semantics). `HashMap` is modelled as an association list whose
`insert` replaces the value at an existing key and otherwise appends.
A panic in the loop body (`expect` on the basename, `unwrap` on
`rssshmem`, both in `GroupedProcess::new`) is modelled as `Except.error`;
a `continue` is `Except.ok none`. -/

/-- The modulus of Rust `u64` arithmetic. -/
def U64 : Nat := 2 ^ 64

/-- `struct MemoryUsage` of `src/lib.rs`: three `u64` fields, all in kB. -/
structure MemoryUsage where
  memory : Nat
  resident : Nat
  shared : Nat
deriving DecidableEq

/-- A `MemoryUsage` is well formed when every field fits in a `u64`. -/
def MemoryUsage.wf (u : MemoryUsage) : Prop :=
  u.memory < U64 ∧ u.resident < U64 ∧ u.shared < U64

/-- `impl Add for MemoryUsage`: field-wise `u64` addition. -/
def MemoryUsage.add (a b : MemoryUsage) : MemoryUsage :=
  ⟨(a.memory + b.memory) % U64, (a.resident + b.resident) % U64,
    (a.shared + b.shared) % U64⟩

instance : Add MemoryUsage := ⟨MemoryUsage.add⟩

/-- `MemoryUsage::default()`: all fields zero. -/
def MemoryUsage.default : MemoryUsage := ⟨0, 0, 0⟩

/-- `impl Sum for MemoryUsage`: a left fold with `+` from the default value. -/
def sumUsages (l : List MemoryUsage) : MemoryUsage :=
  l.foldl (fun acc x => acc + x) MemoryUsage.default

/-- Model of `HashMap::insert`: replace the value at an existing key,
otherwise append the new binding. -/
def insertKV {K V : Type} [DecidableEq K] : List (K × V) → K → V → List (K × V)
  | [], k, v => [(k, v)]
  | (k0, v0) :: rest, k, v =>
    if k0 = k then (k, v) :: rest else (k0, v0) :: insertKV rest k v

/-- Model of `HashMap` lookup. -/
def findKV {K V : Type} [DecidableEq K] : List (K × V) → K → Option V
  | [], _ => none
  | (k0, v0) :: rest, k => if k0 = k then some v0 else findKV rest k

/-- `struct ProcessGroups` of `src/lib.rs`. -/
structure ProcessGroups where
  pid_to_usage : List (Int × MemoryUsage)
  usage_totals : MemoryUsage
deriving DecidableEq

/-- `ProcessGroups::default()`: empty map, zero totals. -/
def ProcessGroups.default : ProcessGroups := ⟨[], MemoryUsage.default⟩

/-- `ProcessGroups::add_usage`: insert the pid binding and unconditionally
add the new usage to the running totals. -/
def ProcessGroups.add_usage (g : ProcessGroups) (pid : Int) (usage : MemoryUsage) :
    ProcessGroups :=
  ⟨insertKV g.pid_to_usage pid usage, g.usage_totals + usage⟩

/-- One component of an executable path, as in `std::path::Component`. -/
inductive PathComponent where
  | rootDir
  | curDir
  | parentDir
  | normal (s : String)
deriving DecidableEq

/-- Model of `Path::file_name`: the final component when it is a normal
one, `none` for a root path or a path ending in `..`. -/
def fileName (p : List PathComponent) : Option String :=
  match p.getLast? with
  | some (PathComponent.normal s) => some s
  | _ => none

/-- The fields of the `procfs` `Status` that the aggregator reads. -/
structure ProcStatus where
  vmrss : Option Nat
  rssshmem : Option Nat

/-- One process as seen by the loop of `GroupedProcess::new`: its pid and
the results of `proc.exe()` and `proc.status()`. -/
structure Process where
  pid : Int
  exe : Except Unit (List PathComponent)
  status : Except Unit ProcStatus

/-- The two panics the loop body of `GroupedProcess::new` can hit. -/
inductive RunError where
  | noBasename
  | missingShmem
deriving DecidableEq

/-- Release-mode `u64` subtraction: wraps modulo `2 ^ 64`. -/
def wrapSub (a b : Nat) : Nat := (a % U64 + (U64 - b % U64)) % U64

/-- One iteration of the loop in `GroupedProcess::new`. `Except.error`
models a panic, `Except.ok none` models `continue`, and
`Except.ok (some d)` yields the basename, pid and usage folded into the
grouping for this record. -/
def processRecord (p : Process) :
    Except RunError (Option (String × Int × MemoryUsage)) :=
  match p.exe with
  | Except.error _ => Except.ok none
  | Except.ok exe =>
    match fileName exe with
    | none => Except.error RunError.noBasename
    | some basename =>
      match p.status with
      | Except.error _ => Except.ok none
      | Except.ok status =>
        match status.vmrss with
        | none => Except.ok none
        | some resident =>
          match status.rssshmem with
          | none => Except.error RunError.missingShmem
          | some shared =>
            Except.ok (some (basename, p.pid,
              ⟨wrapSub resident shared, resident % U64, shared % U64⟩))

/-- The loop of `GroupedProcess::new`: fold the records into the
name-to-group map, starting from the accumulator `acc`. -/
def aggregate : List Process → List (String × ProcessGroups) →
    Except RunError (List (String × ProcessGroups))
  | [], acc => Except.ok acc
  | p :: rest, acc =>
    match processRecord p with
    | Except.error e => Except.error e
    | Except.ok none => aggregate rest acc
    | Except.ok (some (basename, pid, usage)) =>
      aggregate rest
        (insertKV acc basename
          (((findKV acc basename).getD ProcessGroups.default).add_usage pid usage))

/-- `struct GroupedProcess` of `src/lib.rs`. -/
structure GroupedProcess where
  name_to_group : List (String × ProcessGroups)
deriving DecidableEq

/-- `GroupedProcess::new`, over an explicit list of snapshot records. -/
def GroupedProcess.new (procs : List Process) : Except RunError GroupedProcess :=
  (aggregate procs []).map GroupedProcess.mk

/-- The (name, total memory) pairs that `main` of `src/main.rs` collects
from the snapshot before sorting. -/
def renderPairs (g : GroupedProcess) : List (String × Nat) :=
  g.name_to_group.map (fun e => (e.1, e.2.usage_totals.memory))

/-- The order of the sort key `(usage, name)` used by
`sort_unstable_by_key` in `main`: ascending lexicographic. -/
def rendLE (a b : String × Nat) : Prop :=
  a.2 < b.2 ∨ (a.2 = b.2 ∧ a.1 ≤ b.1)

instance : DecidableRel rendLE := fun a b => by
  unfold rendLE
  exact inferInstance

instance : IsTotal (String × Nat) rendLE := by
  constructor
  intro a b
  rcases Nat.lt_trichotomy a.2 b.2 with h | h | h
  · exact Or.inl (Or.inl h)
  · rcases le_total a.1 b.1 with h1 | h1
    · exact Or.inl (Or.inr ⟨h, h1⟩)
    · exact Or.inr (Or.inr ⟨h.symm, h1⟩)
  · exact Or.inr (Or.inl h)

instance : IsTrans (String × Nat) rendLE := by
  constructor
  intro a b c hab hbc
  rcases hab with hab | ⟨hab, hab1⟩ <;> rcases hbc with hbc | ⟨hbc, hbc1⟩
  · exact Or.inl (Nat.lt_trans hab hbc)
  · exact Or.inl (hbc ▸ hab)
  · exact Or.inl (hab ▸ hbc)
  · exact Or.inr ⟨hab.trans hbc, le_trans hab1 hbc1⟩

instance : IsAntisymm (String × Nat) rendLE := by
  constructor
  intro a b hab hba
  obtain ⟨a1, a2⟩ := a
  obtain ⟨b1, b2⟩ := b
  rcases hab with hab | ⟨hab, hab1⟩ <;> rcases hba with hba | ⟨hba, hba1⟩ <;>
    simp only at *
  · omega
  · omega
  · omega
  · exact Prod.ext (le_antisymm hab1 hba1) hab

/-- The output order of `main`: the collected pairs sorted by the
`(usage, name)` key, ascending. -/
def renderOrder (l : List (String × Nat)) : List (String × Nat) :=
  List.insertionSort rendLE l

/-- Written from the spec's words, for comparison with `renderOrder`: the
emitted lines are in descending order of memory, ties broken by basename
ascending. -/
def specDescending : List (String × Nat) → Prop
  | [] => True
  | [_] => True
  | a :: b :: rest => (b.2 < a.2 ∨ (a.2 = b.2 ∧ a.1 ≤ b.1)) ∧ specDescending (b :: rest)

instance specDescendingDec : (l : List (String × Nat)) → Decidable (specDescending l)
  | [] => Decidable.isTrue trivial
  | [_] => Decidable.isTrue trivial
  | _ :: b :: rest =>
    have : Decidable (specDescending (b :: rest)) := specDescendingDec (b :: rest)
    inferInstanceAs (Decidable (_ ∧ _))

/-- A sequence of `add_usage` calls applied to a group. -/
def applyInserts (l : List (Int × MemoryUsage)) (g : ProcessGroups) : ProcessGroups :=
  l.foldl (fun acc pu => acc.add_usage pu.1 pu.2) g

section KVLemmas

variable {K V : Type} [DecidableEq K]

theorem findKV_insertKV_self (m : List (K × V)) (k : K) (v : V) :
    findKV (insertKV m k v) k = some v := by
  induction m with
  | nil => simp [insertKV, findKV]
  | cons hd tl ih =>
    obtain ⟨k0, v0⟩ := hd
    by_cases h : k0 = k
    · subst h
      simp [insertKV, findKV]
    · simp [insertKV, findKV, h, ih]

theorem findKV_insertKV_ne (m : List (K × V)) (k k1 : K) (v : V) (h : k ≠ k1) :
    findKV (insertKV m k v) k1 = findKV m k1 := by
  induction m with
  | nil => simp [insertKV, findKV, h]
  | cons hd tl ih =>
    obtain ⟨k0, v0⟩ := hd
    by_cases h0 : k0 = k
    · subst h0
      simp [insertKV, findKV, h]
    · simp [insertKV, findKV, h0, ih]

theorem mem_keys_insertKV_self (m : List (K × V)) (k : K) (v : V) :
    k ∈ (insertKV m k v).map Prod.fst := by
  induction m with
  | nil => simp [insertKV]
  | cons hd tl ih =>
    obtain ⟨k0, v0⟩ := hd
    by_cases h0 : k0 = k
    · subst h0
      simp [insertKV]
    · simp only [insertKV, h0, if_false, List.map_cons, List.mem_cons]
      exact Or.inr ih

theorem mem_keys_insertKV_mono (m : List (K × V)) (k k1 : K) (v : V)
    (h : k1 ∈ m.map Prod.fst) : k1 ∈ (insertKV m k v).map Prod.fst := by
  induction m with
  | nil => simp at h
  | cons hd tl ih =>
    obtain ⟨k0, v0⟩ := hd
    simp only [List.map_cons, List.mem_cons] at h
    by_cases h0 : k0 = k
    · subst h0
      simpa [insertKV] using h
    · simp only [insertKV, h0, if_false, List.map_cons, List.mem_cons]
      rcases h with h | h
      · exact Or.inl h
      · exact Or.inr (ih h)

theorem insertKV_not_mem_append (m : List (K × V)) (k : K) (v : V)
    (h : k ∉ m.map Prod.fst) : insertKV m k v = m ++ [(k, v)] := by
  induction m with
  | nil => simp [insertKV]
  | cons hd tl ih =>
    obtain ⟨k0, v0⟩ := hd
    simp only [List.map_cons, List.mem_cons, not_or] at h
    have h0 : k0 ≠ k := fun e => h.1 e.symm
    simp [insertKV, h0, ih h.2]

end KVLemmas

theorem MemoryUsage.add_def (a b : MemoryUsage) : a + b = MemoryUsage.add a b := rfl

theorem MemoryUsage.add_assoc (a b c : MemoryUsage) : a + b + c = a + (b + c) := by
  simp only [MemoryUsage.add_def, MemoryUsage.add, MemoryUsage.mk.injEq]
  refine ⟨?_, ?_, ?_⟩ <;> rw [Nat.mod_add_mod, Nat.add_mod_mod, Nat.add_assoc]

theorem MemoryUsage.add_comm (a b : MemoryUsage) : a + b = b + a := by
  simp only [MemoryUsage.add_def, MemoryUsage.add, MemoryUsage.mk.injEq]
  refine ⟨?_, ?_, ?_⟩ <;> rw [Nat.add_comm]

theorem MemoryUsage.add_default (a : MemoryUsage) (h : a.wf) :
    a + MemoryUsage.default = a ∧ MemoryUsage.default + a = a := by
  obtain ⟨m, r, s⟩ := a
  obtain ⟨h1, h2, h3⟩ := h
  constructor <;>
    simp only [MemoryUsage.add_def, MemoryUsage.add, MemoryUsage.default,
      MemoryUsage.mk.injEq] <;>
    simp only [Nat.add_zero, Nat.zero_add] <;>
    exact ⟨Nat.mod_eq_of_lt h1, Nat.mod_eq_of_lt h2, Nat.mod_eq_of_lt h3⟩

theorem foldl_add_perm {l1 l2 : List MemoryUsage} (h : l1.Perm l2) :
    ∀ acc : MemoryUsage,
      l1.foldl (fun a x => a + x) acc = l2.foldl (fun a x => a + x) acc := by
  induction h with
  | nil => intro acc; rfl
  | cons x _ ih => intro acc; simp only [List.foldl_cons]; exact ih _
  | swap x y l =>
    intro acc
    simp only [List.foldl_cons]
    rw [MemoryUsage.add_assoc, MemoryUsage.add_comm y x, ← MemoryUsage.add_assoc]
  | trans _ _ ih1 ih2 => intro acc; exact (ih1 acc).trans (ih2 acc)

theorem sumUsages_append_single (l : List MemoryUsage) (u : MemoryUsage) :
    sumUsages (l ++ [u]) = sumUsages l + u := by
  simp [sumUsages, List.foldl_append]

theorem aggregate_preserves (rest : List Process) :
    ∀ (acc res : List (String × ProcessGroups)) (b : String) (grp : ProcessGroups)
      (pid : Int),
      aggregate rest acc = Except.ok res →
      findKV acc b = some grp → pid ∈ grp.pid_to_usage.map Prod.fst →
      ∃ grp2, findKV res b = some grp2 ∧ pid ∈ grp2.pid_to_usage.map Prod.fst := by
  induction rest with
  | nil =>
    intro acc res b grp pid hagg hfind hmem
    simp only [aggregate, Except.ok.injEq] at hagg
    subst hagg
    exact ⟨grp, hfind, hmem⟩
  | cons p tl ih =>
    intro acc res b grp pid hagg hfind hmem
    rcases hp : processRecord p with e | o
    · rw [aggregate, hp] at hagg
      cases hagg
    · rcases o with _ | ⟨b1, pid1, u1⟩
      · rw [aggregate, hp] at hagg
        exact ih acc res b grp pid hagg hfind hmem
      · rw [aggregate, hp] at hagg
        by_cases hb : b1 = b
        · subst hb
          replace hagg :
              aggregate tl (insertKV acc b1
                (((findKV acc b1).getD ProcessGroups.default).add_usage pid1 u1)) =
                Except.ok res := hagg
          rw [hfind, Option.getD_some] at hagg
          refine ih _ res b1 (grp.add_usage pid1 u1) pid hagg ?_ ?_
          · exact findKV_insertKV_self acc b1 _
          · exact mem_keys_insertKV_mono grp.pid_to_usage pid1 pid u1 hmem
        · refine ih _ res b grp pid hagg ?_ hmem
          rw [findKV_insertKV_ne acc b1 b _ hb]
          exact hfind

theorem aggregate_establishes (l : List Process) :
    ∀ (acc res : List (String × ProcessGroups)) (r : Process) (b : String) (pid : Int)
      (u : MemoryUsage),
      r ∈ l → processRecord r = Except.ok (some (b, pid, u)) →
      aggregate l acc = Except.ok res →
      ∃ grp, findKV res b = some grp ∧ pid ∈ grp.pid_to_usage.map Prod.fst := by
  induction l with
  | nil =>
    intro acc res r b pid u hmem
    simp at hmem
  | cons p tl ih =>
    intro acc res r b pid u hmem hpr hagg
    rcases List.mem_cons.mp hmem with rfl | hmem2
    · rw [aggregate, hpr] at hagg
      exact aggregate_preserves tl _ res b _ pid hagg
        (findKV_insertKV_self acc b _)
        (mem_keys_insertKV_self _ pid u)
    · rcases hp : processRecord p with e | o
      · rw [aggregate, hp] at hagg
        cases hagg
      · rcases o with _ | ⟨b1, pid1, u1⟩
        · rw [aggregate, hp] at hagg
          exact ih acc res r b pid u hmem2 hpr hagg
        · rw [aggregate, hp] at hagg
          exact ih _ res r b pid u hmem2 hpr hagg

theorem aggregate_all_skip (l : List Process) :
    ∀ acc, (∀ p ∈ l, processRecord p = Except.ok none) →
      aggregate l acc = Except.ok acc := by
  induction l with
  | nil => intro acc _; rfl
  | cons p tl ih =>
    intro acc h
    rw [aggregate, h p (List.mem_cons_self p tl)]
    exact ih acc (fun q hq => h q (List.mem_cons_of_mem p hq))

theorem applyInserts_invariant (l : List (Int × MemoryUsage)) :
    ∀ g : ProcessGroups,
      (∀ pu ∈ l, pu.1 ∉ g.pid_to_usage.map Prod.fst) →
      (l.map Prod.fst).Nodup →
      g.usage_totals = sumUsages (g.pid_to_usage.map Prod.snd) →
      (applyInserts l g).usage_totals =
        sumUsages ((applyInserts l g).pid_to_usage.map Prod.snd) := by
  induction l with
  | nil => intro g _ _ hg; exact hg
  | cons pu tl ih =>
    intro g hfresh hnodup hg
    obtain ⟨pid, u⟩ := pu
    have hnot : pid ∉ g.pid_to_usage.map Prod.fst :=
      hfresh (pid, u) (List.mem_cons_self _ _)
    have hins : insertKV g.pid_to_usage pid u = g.pid_to_usage ++ [(pid, u)] :=
      insertKV_not_mem_append g.pid_to_usage pid u hnot
    have hstep : applyInserts ((pid, u) :: tl) g = applyInserts tl (g.add_usage pid u) := rfl
    rw [hstep]
    simp only [List.map_cons, List.nodup_cons] at hnodup
    refine ih (g.add_usage pid u) ?_ hnodup.2 ?_
    · intro qu hqu
      simp only [ProcessGroups.add_usage, hins, List.map_append, List.mem_append,
        List.map_cons, List.map_nil, List.mem_singleton]
      rintro (hin | hin)
      · exact hfresh qu (List.mem_cons_of_mem _ hqu) hin
      · exact hnodup.1 (hin ▸ List.mem_map_of_mem Prod.fst hqu)
    · simp only [ProcessGroups.add_usage, hins, List.map_append, List.map_cons,
        List.map_nil]
      rw [sumUsages_append_single, hg]

/-- Claim C1: the spec demands that a record with `shared > resident` be
skipped or fail the aggregation loudly, and that `memory` never be produced
by wrapping `resident - shared`. The code violates this: for the record
(pid 1, basename "a", resident = 0 kB, shared = 1 kB) the aggregation
succeeds, creates a pid entry, and folds the record into the totals with
`memory` equal to the wrapped value `2 ^ 64 - 1`. -/
theorem c1_shared_gt_resident_folded_wrapped :
    GroupedProcess.new
        [⟨1, Except.ok [PathComponent.normal "a"], Except.ok ⟨some 0, some 1⟩⟩] =
      Except.ok ⟨[("a", ⟨[(1, ⟨U64 - 1, 0, 1⟩)], ⟨U64 - 1, 0, 1⟩⟩)]⟩ := rfl

/-- Claim C5: aggregating the three example records yields exactly the two
groups of the spec's example scenario, with the stated per-pid entries and
totals. -/
theorem c5_example_scenario :
    GroupedProcess.new
        [⟨100, Except.ok [PathComponent.normal "nginx"], Except.ok ⟨some 5000, some 1000⟩⟩,
         ⟨101, Except.ok [PathComponent.normal "nginx"], Except.ok ⟨some 3000, some 500⟩⟩,
         ⟨200, Except.ok [PathComponent.normal "sshd"], Except.ok ⟨some 2000, some 0⟩⟩] =
      Except.ok ⟨[("nginx", ⟨[(100, ⟨4000, 5000, 1000⟩), (101, ⟨2500, 3000, 500⟩)],
          ⟨6500, 8000, 1500⟩⟩),
        ("sshd", ⟨[(200, ⟨2000, 2000, 0⟩)], ⟨2000, 2000, 0⟩⟩)]⟩ := rfl

/-- Claim C6: `MemoryUsage` addition is associative and commutative, the
all-zero value is its identity (on `u64`-valued, i.e. well-formed,
arguments), and consequently the fold-sum of a list of `MemoryUsage`
values is invariant under permutation. -/
theorem c6_monoid_and_perm_sum :
    (∀ a b c : MemoryUsage, a + b + c = a + (b + c)) ∧
    (∀ a b : MemoryUsage, a + b = b + a) ∧
    (∀ a : MemoryUsage, a.wf → a + MemoryUsage.default = a ∧ MemoryUsage.default + a = a) ∧
    (∀ l1 l2 : List MemoryUsage, l1.Perm l2 → sumUsages l1 = sumUsages l2) := by
  refine ⟨MemoryUsage.add_assoc, MemoryUsage.add_comm, MemoryUsage.add_default, ?_⟩
  intro l1 l2 h
  exact foldl_add_perm h MemoryUsage.default

/-- Witness for C6: a concrete identity instance and a concrete two-element
permutation instance. -/
theorem c6_monoid_and_perm_sum_witness :
    ((⟨1, 2, 3⟩ : MemoryUsage) + MemoryUsage.default = ⟨1, 2, 3⟩) ∧
    sumUsages [⟨1, 2, 3⟩, ⟨4, 5, 6⟩] = sumUsages [⟨4, 5, 6⟩, ⟨1, 2, 3⟩] :=
  ⟨(c6_monoid_and_perm_sum.2.2.1 ⟨1, 2, 3⟩ (by refine ⟨?_, ?_, ?_⟩ <;> decide)).1,
    c6_monoid_and_perm_sum.2.2.2 _ _
      (List.Perm.swap (⟨4, 5, 6⟩ : MemoryUsage) (⟨1, 2, 3⟩ : MemoryUsage) [])⟩

/-- Claim C9: `MemoryUsage` addition is unchecked `u64` arithmetic: when
every field-wise sum is below `2 ^ 64` the result is the exact field-wise
mathematical sum, and whenever any one of the three field-wise sums —
memory, resident or shared — reaches `2 ^ 64`, that field of the result is
not the mathematical sum but the sum reduced modulo `2 ^ 64`. -/
theorem c9_u64_add_exact_iff_bounded :
    (∀ a b : MemoryUsage,
      a.memory + b.memory < U64 → a.resident + b.resident < U64 →
      a.shared + b.shared < U64 →
      a + b = ⟨a.memory + b.memory, a.resident + b.resident, a.shared + b.shared⟩) ∧
    (∀ a b : MemoryUsage, U64 ≤ a.memory + b.memory →
      (a + b).memory = (a.memory + b.memory) % U64 ∧
      (a + b).memory ≠ a.memory + b.memory) ∧
    (∀ a b : MemoryUsage, U64 ≤ a.resident + b.resident →
      (a + b).resident = (a.resident + b.resident) % U64 ∧
      (a + b).resident ≠ a.resident + b.resident) ∧
    (∀ a b : MemoryUsage, U64 ≤ a.shared + b.shared →
      (a + b).shared = (a.shared + b.shared) % U64 ∧
      (a + b).shared ≠ a.shared + b.shared) := by
  refine ⟨?_, ?_, ?_, ?_⟩
  · intro a b h1 h2 h3
    simp only [MemoryUsage.add_def, MemoryUsage.add, MemoryUsage.mk.injEq]
    exact ⟨Nat.mod_eq_of_lt h1, Nat.mod_eq_of_lt h2, Nat.mod_eq_of_lt h3⟩
  · intro a b h
    have hlt : (a.memory + b.memory) % U64 < U64 :=
      Nat.mod_lt _ (by decide)
    refine ⟨rfl, ?_⟩
    show (a.memory + b.memory) % U64 ≠ a.memory + b.memory
    omega
  · intro a b h
    have hlt : (a.resident + b.resident) % U64 < U64 :=
      Nat.mod_lt _ (by decide)
    refine ⟨rfl, ?_⟩
    show (a.resident + b.resident) % U64 ≠ a.resident + b.resident
    omega
  · intro a b h
    have hlt : (a.shared + b.shared) % U64 < U64 :=
      Nat.mod_lt _ (by decide)
    refine ⟨rfl, ?_⟩
    show (a.shared + b.shared) % U64 ≠ a.shared + b.shared
    omega

/-- Witness for C9: an in-bounds instance and one overflowing instance for
each of the three fields. -/
theorem c9_u64_add_exact_iff_bounded_witness :
    ((⟨1, 2, 3⟩ : MemoryUsage) + ⟨4, 5, 6⟩ = ⟨1 + 4, 2 + 5, 3 + 6⟩) ∧
    ((⟨U64 - 1, 0, 0⟩ : MemoryUsage) + ⟨1, 0, 0⟩).memory ≠ (U64 - 1) + 1 ∧
    ((⟨0, U64 - 1, 0⟩ : MemoryUsage) + ⟨0, 1, 0⟩).resident ≠ (U64 - 1) + 1 ∧
    ((⟨0, 0, U64 - 1⟩ : MemoryUsage) + ⟨0, 0, 1⟩).shared ≠ (U64 - 1) + 1 :=
  ⟨c9_u64_add_exact_iff_bounded.1 ⟨1, 2, 3⟩ ⟨4, 5, 6⟩ (by decide) (by decide) (by decide),
    (c9_u64_add_exact_iff_bounded.2.1 ⟨U64 - 1, 0, 0⟩ ⟨1, 0, 0⟩ (by decide)).2,
    (c9_u64_add_exact_iff_bounded.2.2.1 ⟨0, U64 - 1, 0⟩ ⟨0, 1, 0⟩ (by decide)).2,
    (c9_u64_add_exact_iff_bounded.2.2.2 ⟨0, 0, U64 - 1⟩ ⟨0, 0, 1⟩ (by decide)).2⟩

/-- Claim C10: when `proc.exe()` succeeds but the path has no final
component, the loop of `GroupedProcess::new` panics with the
`Failed to get basename` expect instead of skipping the record, aborting
the whole pass; when the resolved path does have a final component, the
basename extraction succeeds and that panic can never fire. -/
theorem c10_basename_panic :
    (∀ (p : Process) (path : List PathComponent), p.exe = Except.ok path →
      fileName path = none → processRecord p = Except.error RunError.noBasename) ∧
    (∀ (p : Process) (path : List PathComponent) (rest : List Process),
      p.exe = Except.ok path → fileName path = none →
      GroupedProcess.new (p :: rest) = Except.error RunError.noBasename) ∧
    (∀ (p : Process) (path : List PathComponent) (s : String), p.exe = Except.ok path →
      fileName path = some s → processRecord p ≠ Except.error RunError.noBasename) := by
  refine ⟨?_, ?_, ?_⟩
  · intro p path hexe hfn
    simp [processRecord, hexe, hfn]
  · intro p path rest hexe hfn
    have h1 : processRecord p = Except.error RunError.noBasename := by
      simp [processRecord, hexe, hfn]
    simp [GroupedProcess.new, aggregate, h1, Except.map]
  · intro p path s hexe hfn
    simp only [processRecord, hexe, hfn]
    rcases p.status with u | st
    · simp
    · rcases hv : st.vmrss with _ | resident
      · simp [hv]
      · rcases hs : st.rssshmem with _ | shared
        · simp [hv, hs]
        · simp [hv, hs]

/-- Witness for C10: a process whose exe is the root path panics, and a
process with a normal final component never hits that panic. -/
theorem c10_basename_panic_witness :
    processRecord ⟨1, Except.ok [PathComponent.rootDir], Except.ok ⟨some 1, some 1⟩⟩ =
      Except.error RunError.noBasename ∧
    processRecord ⟨2, Except.ok [PathComponent.normal "x"], Except.ok ⟨none, none⟩⟩ ≠
      Except.error RunError.noBasename :=
  ⟨c10_basename_panic.1 _ [PathComponent.rootDir] rfl rfl,
    c10_basename_panic.2.2 _ [PathComponent.normal "x"] "x" rfl rfl⟩

/-- Counterexample to claim C2 as stated: a record whose resident and
shared figures are both absent (so the source contract holds) but whose
resolved exe path has no final component is not skipped silently; the
basename expect aborts the pass before the resident check is reached. -/
theorem c2_counterexample_basename_panic :
    aggregate [⟨1, Except.ok [PathComponent.rootDir], Except.ok ⟨none, none⟩⟩] [] =
      Except.error RunError.noBasename := rfl

/-- Claim C2 (amended): a record whose resident or shared figure is absent
is skipped silently — it contributes nothing to any group, introduces no
pid entry, and does not abort the pass — provided the source contract
holds (resident and shared present together or absent together) and the
record does not independently trip the basename panic, i.e. its exe is
unresolvable or resolves to a path with a final component. -/
theorem c2_missing_figures_skipped (p : Process) (st : ProcStatus)
    (hexe : p.exe = Except.error () ∨
      ∃ path s, p.exe = Except.ok path ∧ fileName path = some s)
    (hst : p.status = Except.ok st)
    (hcontract : st.vmrss = none ↔ st.rssshmem = none)
    (habsent : st.vmrss = none ∨ st.rssshmem = none) :
    processRecord p = Except.ok none ∧
    ∀ rest acc, aggregate (p :: rest) acc = aggregate rest acc := by
  have hvm : st.vmrss = none := by
    rcases habsent with h | h
    · exact h
    · exact hcontract.mpr h
  have hskip : processRecord p = Except.ok none := by
    rcases hexe with h | ⟨path, s, hok, hfn⟩
    · simp [processRecord, h]
    · simp [processRecord, hok, hfn, hst, hvm]
  refine ⟨hskip, ?_⟩
  intro rest acc
  rw [aggregate, hskip]

/-- Witness for C2: a record whose exe is unresolvable and whose resident
and shared figures are both absent leaves the aggregation unchanged. -/
theorem c2_missing_figures_skipped_witness :
    processRecord ⟨1, Except.error (), Except.ok ⟨none, none⟩⟩ = Except.ok none ∧
    aggregate [⟨1, Except.error (), Except.ok ⟨none, none⟩⟩] [] =
      aggregate [] ([] : List (String × ProcessGroups)) := by
  have h := c2_missing_figures_skipped ⟨1, Except.error (), Except.ok ⟨none, none⟩⟩
    ⟨none, none⟩ (Or.inl rfl) rfl Iff.rfl (Or.inl rfl)
  exact ⟨h.1, h.2 [] []⟩

/-- Counterexample to claim C3 as stated: inserting the same pid twice via
`add_usage` double-counts — the totals no longer equal the fold-sum of the
map's values. -/
theorem c3_counterexample_overwrite_double_counts :
    ((ProcessGroups.default.add_usage 1 ⟨1, 1, 0⟩).add_usage 1 ⟨1, 1, 0⟩).usage_totals ≠
      sumUsages (((ProcessGroups.default.add_usage 1 ⟨1, 1, 0⟩).add_usage 1
        ⟨1, 1, 0⟩).pid_to_usage.map Prod.snd) := by decide

/-- Claim C3 (amended): after any sequence of `add_usage` insertions with
pairwise-distinct pids — the collision-free situation the snapshot source
guarantees, since pids are unique at an instant — the group's
`usage_totals` equals the fold-sum of the values of `pid_to_usage`. On an
overwrite of an existing pid the code double-counts instead. -/
theorem c3_totals_invariant_distinct_pids (l : List (Int × MemoryUsage))
    (hnodup : (l.map Prod.fst).Nodup) :
    (applyInserts l ProcessGroups.default).usage_totals =
      sumUsages ((applyInserts l ProcessGroups.default).pid_to_usage.map Prod.snd) := by
  refine applyInserts_invariant l ProcessGroups.default ?_ hnodup rfl
  intro pu _ h
  simp [ProcessGroups.default] at h

/-- Witness for C3: two insertions with distinct pids keep the totals equal
to the fold-sum of the map's values. -/
theorem c3_totals_invariant_witness :
    (applyInserts [(1, ⟨1, 2, 1⟩), (2, ⟨3, 4, 1⟩)] ProcessGroups.default).usage_totals =
      sumUsages ((applyInserts [(1, ⟨1, 2, 1⟩), (2, ⟨3, 4, 1⟩)]
        ProcessGroups.default).pid_to_usage.map Prod.snd) :=
  c3_totals_invariant_distinct_pids [(1, ⟨1, 2, 1⟩), (2, ⟨3, 4, 1⟩)] (by decide)

/-- Counterexample to claim C4 as stated: on two groups with memory totals
10 and 5 the program emits the smaller total first, so the output is not
in descending order of memory. -/
theorem c4_counterexample_sort_ascending :
    renderOrder (renderPairs ⟨[("a", ⟨[], ⟨10, 0, 0⟩⟩), ("b", ⟨[], ⟨5, 0, 0⟩⟩)]⟩) =
      [("b", 5), ("a", 10)] ∧
    ¬ specDescending (renderOrder
      (renderPairs ⟨[("a", ⟨[], ⟨10, 0, 0⟩⟩), ("b", ⟨[], ⟨5, 0, 0⟩⟩)]⟩)) := by
  constructor
  · rfl
  · decide

/-- Claim C4 (amended): the renderer sorts the emitted lines in ascending
(not descending) order of each group's total memory, with ties broken by
name ascending; because the full `(usage, name)` key is compared, the
output is deterministic — every iteration order of the name-to-group map
yields the same output list. -/
theorem c4_render_order_ascending_deterministic (g : GroupedProcess)
    (l : List (String × Nat)) (hperm : l.Perm (renderPairs g)) :
    renderOrder l = renderOrder (renderPairs g) ∧
    List.Sorted rendLE (renderOrder l) ∧
    (renderOrder l).Perm (renderPairs g) := by
  have hs1 : List.Sorted rendLE (renderOrder l) :=
    List.sorted_insertionSort rendLE l
  have hs2 : List.Sorted rendLE (renderOrder (renderPairs g)) :=
    List.sorted_insertionSort rendLE (renderPairs g)
  have hp : (renderOrder l).Perm (renderPairs g) :=
    (List.perm_insertionSort rendLE l).trans hperm
  have hp2 : (renderOrder l).Perm (renderOrder (renderPairs g)) :=
    hp.trans (List.perm_insertionSort rendLE (renderPairs g)).symm
  exact ⟨List.eq_of_perm_of_sorted hp2 hs1 hs2, hs1, hp⟩

/-- Witness for C4: a reversed iteration order of a two-group snapshot
yields the same sorted output. -/
theorem c4_render_order_witness :
    renderOrder [("b", 2), ("a", 1)] =
      renderOrder (renderPairs ⟨[("a", ⟨[], ⟨1, 0, 0⟩⟩), ("b", ⟨[], ⟨2, 0, 0⟩⟩)]⟩) ∧
    List.Sorted rendLE (renderOrder [("b", 2), ("a", 1)]) ∧
    (renderOrder [("b", 2), ("a", 1)]).Perm
      (renderPairs ⟨[("a", ⟨[], ⟨1, 0, 0⟩⟩), ("b", ⟨[], ⟨2, 0, 0⟩⟩)]⟩) :=
  c4_render_order_ascending_deterministic
    ⟨[("a", ⟨[], ⟨1, 0, 0⟩⟩), ("b", ⟨[], ⟨2, 0, 0⟩⟩)]⟩ [("b", 2), ("a", 1)]
    (List.Perm.swap ("a", 1) ("b", 2) [])

/-- Claim C7: two valid records with the same basename land in the same
group, with both their (distinct) pids present in that group's
`pid_to_usage`; two valid records with different basenames land in the
groups of their respective basenames, which are different entries of the
name-to-group map. -/
theorem c7_grouping_correctness (l : List Process) (r1 r2 : Process)
    (b1 b2 : String) (p1 p2 : Int) (u1 u2 : MemoryUsage) (g : GroupedProcess)
    (h1 : r1 ∈ l) (h2 : r2 ∈ l)
    (hv1 : processRecord r1 = Except.ok (some (b1, p1, u1)))
    (hv2 : processRecord r2 = Except.ok (some (b2, p2, u2)))
    (hnew : GroupedProcess.new l = Except.ok g) :
    (b1 = b2 → p1 ≠ p2 →
      ∃ grp, findKV g.name_to_group b1 = some grp ∧
        p1 ∈ grp.pid_to_usage.map Prod.fst ∧ p2 ∈ grp.pid_to_usage.map Prod.fst) ∧
    (b1 ≠ b2 →
      ∃ grp1 grp2, findKV g.name_to_group b1 = some grp1 ∧
        findKV g.name_to_group b2 = some grp2 ∧
        p1 ∈ grp1.pid_to_usage.map Prod.fst ∧ p2 ∈ grp2.pid_to_usage.map Prod.fst) := by
  obtain ⟨res, hagg, rfl⟩ :
      ∃ res, aggregate l [] = Except.ok res ∧ g = GroupedProcess.mk res := by
    unfold GroupedProcess.new at hnew
    rcases h : aggregate l [] with e | res
    · rw [h] at hnew
      cases hnew
    · rw [h] at hnew
      simp only [Except.map, Except.ok.injEq] at hnew
      exact ⟨res, rfl, hnew.symm⟩
  obtain ⟨grpA, hA, hpA⟩ := aggregate_establishes l [] res r1 b1 p1 u1 h1 hv1 hagg
  obtain ⟨grpB, hB, hpB⟩ := aggregate_establishes l [] res r2 b2 p2 u2 h2 hv2 hagg
  constructor
  · intro hb _
    subst hb
    rw [hA] at hB
    obtain rfl : grpA = grpB := by
      injection hB
    exact ⟨grpA, hA, hpA, hpB⟩
  · intro _
    exact ⟨grpA, grpB, hA, hB, hpA, hpB⟩

/-- Witness for C7: two nginx records with pids 100 and 101 and one sshd
record with pid 200 land as the claim says. -/
theorem c7_grouping_correctness_witness :
    (("nginx" : String) = "nginx" → (100 : Int) ≠ 101 →
      ∃ grp, findKV (GroupedProcess.mk
          [("nginx", ⟨[(100, ⟨4000, 5000, 1000⟩), (101, ⟨2500, 3000, 500⟩)],
            ⟨6500, 8000, 1500⟩⟩),
           ("sshd", ⟨[(200, ⟨2000, 2000, 0⟩)], ⟨2000, 2000, 0⟩⟩)]).name_to_group
          "nginx" = some grp ∧
        (100 : Int) ∈ grp.pid_to_usage.map Prod.fst ∧
        (101 : Int) ∈ grp.pid_to_usage.map Prod.fst) ∧
    (("nginx" : String) ≠ "sshd" →
      ∃ grp1 grp2, findKV (GroupedProcess.mk
          [("nginx", ⟨[(100, ⟨4000, 5000, 1000⟩), (101, ⟨2500, 3000, 500⟩)],
            ⟨6500, 8000, 1500⟩⟩),
           ("sshd", ⟨[(200, ⟨2000, 2000, 0⟩)], ⟨2000, 2000, 0⟩⟩)]).name_to_group
          "nginx" = some grp1 ∧
        findKV (GroupedProcess.mk
          [("nginx", ⟨[(100, ⟨4000, 5000, 1000⟩), (101, ⟨2500, 3000, 500⟩)],
            ⟨6500, 8000, 1500⟩⟩),
           ("sshd", ⟨[(200, ⟨2000, 2000, 0⟩)], ⟨2000, 2000, 0⟩⟩)]).name_to_group
          "sshd" = some grp2 ∧
        (100 : Int) ∈ grp1.pid_to_usage.map Prod.fst ∧
        (200 : Int) ∈ grp2.pid_to_usage.map Prod.fst) := by
  have h := c7_grouping_correctness
    [⟨100, Except.ok [PathComponent.normal "nginx"], Except.ok ⟨some 5000, some 1000⟩⟩,
     ⟨101, Except.ok [PathComponent.normal "nginx"], Except.ok ⟨some 3000, some 500⟩⟩,
     ⟨200, Except.ok [PathComponent.normal "sshd"], Except.ok ⟨some 2000, some 0⟩⟩]
    ⟨100, Except.ok [PathComponent.normal "nginx"], Except.ok ⟨some 5000, some 1000⟩⟩
    ⟨200, Except.ok [PathComponent.normal "sshd"], Except.ok ⟨some 2000, some 0⟩⟩
    "nginx" "sshd" 100 200 ⟨4000, 5000, 1000⟩ ⟨2000, 2000, 0⟩
    (GroupedProcess.mk
      [("nginx", ⟨[(100, ⟨4000, 5000, 1000⟩), (101, ⟨2500, 3000, 500⟩)],
        ⟨6500, 8000, 1500⟩⟩),
       ("sshd", ⟨[(200, ⟨2000, 2000, 0⟩)], ⟨2000, 2000, 0⟩⟩)])
    (by simp) (by simp) rfl rfl rfl
  have h2 := c7_grouping_correctness
    [⟨100, Except.ok [PathComponent.normal "nginx"], Except.ok ⟨some 5000, some 1000⟩⟩,
     ⟨101, Except.ok [PathComponent.normal "nginx"], Except.ok ⟨some 3000, some 500⟩⟩,
     ⟨200, Except.ok [PathComponent.normal "sshd"], Except.ok ⟨some 2000, some 0⟩⟩]
    ⟨100, Except.ok [PathComponent.normal "nginx"], Except.ok ⟨some 5000, some 1000⟩⟩
    ⟨101, Except.ok [PathComponent.normal "nginx"], Except.ok ⟨some 3000, some 500⟩⟩
    "nginx" "nginx" 100 101 ⟨4000, 5000, 1000⟩ ⟨2500, 3000, 500⟩
    (GroupedProcess.mk
      [("nginx", ⟨[(100, ⟨4000, 5000, 1000⟩), (101, ⟨2500, 3000, 500⟩)],
        ⟨6500, 8000, 1500⟩⟩),
       ("sshd", ⟨[(200, ⟨2000, 2000, 0⟩)], ⟨2000, 2000, 0⟩⟩)])
    (by simp) (by simp) rfl rfl rfl
  exact ⟨fun _ _ => h2.1 rfl (by decide), fun hne => h.2 hne⟩

/-- Claim C8: aggregating an empty sequence — or any sequence all of whose
records are skipped — yields a `GroupedProcess` with an empty
name-to-group map, and the core surfaces no error: the result is a
successful, valid terminal state. -/
theorem c8_empty_aggregation :
    GroupedProcess.new [] = Except.ok ⟨[]⟩ ∧
    ∀ l : List Process, (∀ p ∈ l, processRecord p = Except.ok none) →
      GroupedProcess.new l = Except.ok ⟨[]⟩ := by
  constructor
  · rfl
  · intro l h
    unfold GroupedProcess.new
    rw [aggregate_all_skip l [] h]
    rfl

/-- Witness for C8: a singleton list whose only record is skipped yields
the empty snapshot. -/
theorem c8_empty_aggregation_witness :
    GroupedProcess.new [⟨1, Except.error (), Except.error ()⟩] = Except.ok ⟨[]⟩ := by
  refine c8_empty_aggregation.2 [⟨1, Except.error (), Except.error ()⟩] ?_
  intro p hp
  rcases List.mem_singleton.mp hp with rfl
  rfl
